import Mathlib

set_option linter.unusedVariables false

/-- Minutes in one calendar day. Instants are modelled as minutes since an epoch
that starts at midnight, so day boundaries fall at multiples of this constant. -/
def minutesPerDay : Nat := 1440

/-- Model of `moment().subtract(1, 'weeks').startOf('day')` as used in
`fetchEmails` and `main` of `src/src/main.ts`: subtract seven days from `now`,
then truncate to the start of that calendar day. -/
def computeCutoff (now : Nat) : Nat :=
  (now - 7 * minutesPerDay) / minutesPerDay * minutesPerDay

/-- Trace record of one `connection.search` request: the window start sequence
number, the cutoff instant carried in the `before:` criterion, whether the call
succeeded, and the length of the returned page (0 when the call failed). -/
structure SearchCall where
  startSeq : Nat
  cutoff : Nat
  ok : Bool
  pageLen : Nat
deriving Repr, DecidableEq

/-- Trace record of one `connection.messageMove` request: the chunk of message
identifiers submitted, the mover's cursor (`index`) at submission, the value of
the moved-message counter at submission time, and the outcome reported by the
store. -/
structure MoveCall where
  chunk : List Nat
  index : Nat
  movedCountAt : Nat
  ok : Bool
deriving Repr, DecidableEq

/-- Oracle describing the remote IMAP store and environment for one run:
wall-clock readings, search responses and outcomes, mailbox listing, move
outcomes (indexed by the global count of `messageMove` calls so far), and the
session-lifecycle outcomes. -/
structure Store where
  now0 : Nat
  nowAt : Nat → Nat
  searchOk : Nat → Bool
  searchResult : Nat → Nat → List Nat
  mailboxPaths : List String
  moveOk : Nat → Bool
  connectOk : Bool
  openOk : Bool
  logoutOk : Bool
  statusMessages : Nat

/-- ASCII lower-casing of one character, modelling what
`String.prototype.toLowerCase()` does on the ASCII mailbox names this program
compares. -/
def lowerChar (c : Char) : Char :=
  if 65 ≤ c.toNat ∧ c.toNat ≤ 90 then Char.ofNat (c.toNat + 32) else c

/-- ASCII lower-casing of a mailbox path, modelling
`mailbox.path.toLowerCase()`. -/
def toLowerAscii (s : String) : String := String.mk (s.data.map lowerChar)

/-- Model of the archive-existence test in `moveEmailsToArchive`
(`mailboxes.some(mailbox => mailbox.path.toLowerCase() === "archive")`). -/
def archivePresent (st : Store) : Bool :=
  st.mailboxPaths.any (fun p => toLowerAscii p == "archive")

/-- Mutable state threaded through a run of `main` in `src/src/main.ts`:
the pagination cursor `startSeq`, the count of searches issued so far
(`searchIdx`, used to index wall-clock readings), the global count of
`messageMove` calls (`moveIdx`), the `totalEmailsMoved` counter
(`movedCount`), the count of `connection.list()` calls (`listCalls`), and the
traces of search and move requests issued so far. -/
structure RunState where
  startSeq : Nat
  searchIdx : Nat
  moveIdx : Nat
  movedCount : Nat
  listCalls : Nat
  searchCalls : List SearchCall
  moveCalls : List MoveCall
deriving Repr, DecidableEq

/-- Initial run state: pagination starts at sequence number 1 with empty
traces and a zero moved-message counter. -/
def initState : RunState :=
  { startSeq := 1, searchIdx := 0, moveIdx := 0, movedCount := 0,
    listCalls := 0, searchCalls := [], moveCalls := [] }

/-- Model of `fetchEmails` (identical in `src/src/main.ts` and the
`part_000` iteration): compute the cutoff from the wall clock at this call
(`nowAt k`, where `k` counts search calls issued so far in the run), then issue
one search over the window `[startSeq, startSeq + B - 1]` with that cutoff as
the `before:` criterion. Returns the cutoff together with `some page`, or
`none` when the search call throws. -/
def fetchEmails (st : Store) (B k startSeq : Nat) : Nat × Option (List Nat) :=
  let cutoff := computeCutoff (st.nowAt k)
  (cutoff, if st.searchOk k then some (st.searchResult cutoff startSeq) else none)

/-- Model of the chunked move loop inside `moveEmailsToArchive`
(both iterations): while `index < emails.length`, submit
`emails.slice(index, index + BATCH_SIZE)` to `messageMove`; on success advance
`index` by `BATCH_SIZE`, on failure leave `index` unchanged and retry. The
fuel argument bounds the number of iterations modelled; `none` means the loop
did not finish within the given fuel (in particular, an endlessly failing
chunk). -/
def moveLoop (st : Store) (B : Nat) (emails : List Nat) :
    Nat → Nat → RunState → Option RunState
  | 0, _, _ => none
  | fuel + 1, index, s =>
    if index < emails.length then
      let batch := (emails.drop index).take B
      let ok := st.moveOk s.moveIdx
      let s' : RunState :=
        { s with moveIdx := s.moveIdx + 1,
                 moveCalls := s.moveCalls ++ [⟨batch, index, s.movedCount, ok⟩] }
      if ok then moveLoop st B emails fuel (index + B) s'
      else moveLoop st B emails fuel index s'
    else some s

/-- Model of `moveEmailsToArchive` (both iterations): call
`connection.list()`, test whether some mailbox path lowercases to
`"archive"`; if absent, log and return without issuing any move; if present,
run the chunked move loop from cursor 0. -/
def moveEmailsToArchive (st : Store) (B : Nat) (emails : List Nat)
    (fuel : Nat) (s : RunState) : Option RunState :=
  let s' : RunState := { s with listCalls := s.listCalls + 1 }
  if archivePresent st then moveLoop st B emails fuel 0 s' else some s'

/-- Model of the pagination loop in `main` of `src/src/main.ts`:
`while (true) { const emails = await fetchEmails(client, startSeq);
if (emails.length) { await moveEmailsToArchive(...); totalEmailsMoved +=
emails.length; } else { break; } startSeq += BATCH_SIZE; }`.
A search that throws propagates to `main`'s catch: the loop returns with the
Boolean `true` (fatal). A clean exit on an empty page returns `false`.
`none` means the loop did not finish within the given fuel. -/
def mainLoop (st : Store) (B : Nat) : Nat → RunState → Option (RunState × Bool)
  | 0, _ => none
  | fuel + 1, s =>
    let k := s.searchIdx
    match fetchEmails st B k s.startSeq with
    | (cutoff, some emails) =>
      let s1 : RunState :=
        { s with searchIdx := k + 1,
                 searchCalls := s.searchCalls ++ [⟨s.startSeq, cutoff, true, emails.length⟩] }
      if emails.length ≠ 0 then
        match moveEmailsToArchive st B emails fuel s1 with
        | none => none
        | some s2 =>
          let s3 : RunState :=
            { s2 with movedCount := s2.movedCount + emails.length,
                      startSeq := s2.startSeq + B }
          mainLoop st B fuel s3
      else some (s1, false)
    | (cutoff, none) =>
      some ({ s with searchIdx := k + 1,
                     searchCalls := s.searchCalls ++ [⟨s.startSeq, cutoff, false, 0⟩] }, true)

/-- Observable outcome of one run of `main` in `src/src/main.ts`: the
run-level cutoff computed at the top of the `try` block (never passed to any
search), the `estimatedTotalEmails` snapshot, the final counters and traces,
whether a fatal error was caught, how many times `logout` ran, and the process
exit status. -/
structure RunResult where
  runCutoff : Nat
  estimatedTotal : Nat
  movedCount : Nat
  listCalls : Nat
  logoutCalls : Nat
  exitCode : Nat
  searchCalls : List SearchCall
  moveCalls : List MoveCall
  fatal : Bool
deriving Repr, DecidableEq

/-- Model of `main` in `src/src/main.ts`: compute `oneWeekAgo` (unused),
connect, open INBOX, snapshot the message count, run the pagination loop; a
fatal error from connect/open/search is caught and logged; the `finally`
block always runs `logout` exactly once; the process exits 0 when `main`
resolves and 1 when the `logout` call in `finally` throws (the inner catch has
already swallowed any fatal run error). -/
def runMain (st : Store) (B fuel : Nat) : Option RunResult :=
  let runCutoff := computeCutoff st.now0
  let inner : Option (RunState × Bool × Nat) :=
    if st.connectOk then
      if st.openOk then
        match mainLoop st B fuel initState with
        | none => none
        | some (s, fat) => some (s, fat, st.statusMessages)
      else some (initState, true, 0)
    else some (initState, true, 0)
  match inner with
  | none => none
  | some (s, fat, est) =>
    some { runCutoff := runCutoff, estimatedTotal := est,
           movedCount := s.movedCount, listCalls := s.listCalls,
           logoutCalls := 1,
           exitCode := if st.logoutOk then 0 else 1,
           searchCalls := s.searchCalls, moveCalls := s.moveCalls,
           fatal := fat }

/-- Model of the pagination loop of `fetchAllOldEmails` in the `part_000`
iteration: accumulate pages, stop as soon as a page is strictly shorter than
`BATCH_SIZE`, otherwise advance `startSeq` by `BATCH_SIZE` and fetch again.
The Boolean in the result is `true` when a search threw (the exception
propagates to `main`'s catch). `none` means fuel ran out. -/
def fetchAllLoop (st : Store) (B : Nat) :
    Nat → Nat → Nat → List Nat → List SearchCall →
    Option (Bool × List Nat × List SearchCall)
  | 0, _, _, _, _ => none
  | fuel + 1, startSeq, k, acc, calls =>
    match fetchEmails st B k startSeq with
    | (cutoff, some emails) =>
      let calls' := calls ++ [⟨startSeq, cutoff, true, emails.length⟩]
      let acc' := acc ++ emails
      if emails.length < B then some (false, acc', calls')
      else fetchAllLoop st B fuel (startSeq + B) (k + 1) acc' calls'
    | (cutoff, none) =>
      some (true, acc, calls ++ [⟨startSeq, cutoff, false, 0⟩])

/-- Model of `fetchAllOldEmails` in the `part_000` iteration: run the
accumulation loop from `startSeq = 1` with empty accumulators. -/
def fetchAllOldEmails (st : Store) (B fuel : Nat) :
    Option (Bool × List Nat × List SearchCall) :=
  fetchAllLoop st B fuel 1 0 [] []

/-- Observable outcome of one run of `main` in the `part_000` iteration. -/
structure RunResultV0 where
  allEmails : List Nat
  searchCalls : List SearchCall
  moveCalls : List MoveCall
  listCalls : Nat
  logoutCalls : Nat
  exitCode : Nat
  fatal : Bool
deriving Repr, DecidableEq

/-- Process exit status shared by both iterations of `main`: the inner catch
swallows run errors, so `main`'s promise rejects (and the process exits 1)
exactly when the `logout` call in `finally` throws. -/
def exitCodeOf (st : Store) : Nat := if st.logoutOk then 0 else 1

/-- Model of `main` in the `part_000` iteration: connect, open INBOX, collect
all old emails with `fetchAllOldEmails`, and only then — when the collected
list is non-empty — call `moveEmailsToArchive` once on the whole list; fatal
errors are caught; `finally` runs `logout` exactly once. -/
def runMainV0 (st : Store) (B fuel : Nat) : Option RunResultV0 :=
  if st.connectOk then
    if st.openOk then
      match fetchAllOldEmails st B fuel with
      | none => none
      | some (fat, emails, calls) =>
        if fat then
          some ⟨[], calls, [], 0, 1, exitCodeOf st, true⟩
        else if emails.length ≠ 0 then
          match moveEmailsToArchive st B emails fuel
              { startSeq := 1, searchIdx := calls.length, moveIdx := 0,
                movedCount := 0, listCalls := 0,
                searchCalls := calls, moveCalls := [] } with
          | none => none
          | some s =>
            some ⟨emails, s.searchCalls, s.moveCalls, s.listCalls, 1,
                  exitCodeOf st, false⟩
        else some ⟨emails, calls, [], 0, 1, exitCodeOf st, false⟩
    else some ⟨[], [], [], 0, 1, exitCodeOf st, true⟩
  else some ⟨[], [], [], 0, 1, exitCodeOf st, true⟩

/-- A search-trace entry corresponds to a non-empty page exactly when the call
succeeded and returned at least one identifier; `main` hands exactly these
pages to `moveEmailsToArchive`. -/
def nonEmptyPage (c : SearchCall) : Bool := c.ok && (c.pageLen != 0)

/-- Store in which the source mailbox holds exactly the sequence numbers
`1..m`, every message matches the cutoff, the archive mailbox exists, and
every store operation succeeds: a search over window `[s, s+B-1]` returns
`s, s+1, ...` up to `min (s+B-1) m`. Used to model the spec's
"all messages match the cutoff" pagination scenarios. -/
def uniformStore (m B : Nat) : Store :=
  { now0 := 0, nowAt := fun _ => 0, searchOk := fun _ => true,
    searchResult := fun _ s => List.range' s (min B (m + 1 - s)),
    mailboxPaths := ["INBOX", "Archive"], moveOk := fun _ => true,
    connectOk := true, openOk := true, logoutOk := true, statusMessages := m }

/-- Trace specification of a completed chunked move loop, proved for every
store, batch size, page, fuel and starting state: the move trace grows by a
block `nm` of calls all sharing the current counter value; every other
run-state field is untouched; the successful chunks, concatenated in order,
are exactly the not-yet-processed suffix of the page; and every failed call is
followed by a resubmission of the identical chunk at the identical cursor with
the counter unchanged. -/
theorem moveLoop_spec (st : Store) (B : Nat) (emails : List Nat) :
    ∀ (fuel idx : Nat) (s out : RunState),
      moveLoop st B emails fuel idx s = some out →
      ∃ nm : List MoveCall,
        out.moveCalls = s.moveCalls ++ nm ∧
        out.startSeq = s.startSeq ∧
        out.searchIdx = s.searchIdx ∧
        out.movedCount = s.movedCount ∧
        out.listCalls = s.listCalls ∧
        out.searchCalls = s.searchCalls ∧
        out.moveIdx = s.moveIdx + nm.length ∧
        (∀ c ∈ nm, c.movedCountAt = s.movedCount) ∧
        (nm = [] → emails.length ≤ idx) ∧
        (∀ hne : nm ≠ [], (nm.head hne).index = idx ∧
            (nm.head hne).chunk = (emails.drop idx).take B) ∧
        ((nm.filter MoveCall.ok).map MoveCall.chunk).flatten = emails.drop idx ∧
        (∀ i (h : i < nm.length), nm[i].ok = false →
          (nm[i + 1]?).map (fun c => (c.chunk, c.index, c.movedCountAt))
            = some (nm[i].chunk, nm[i].index, nm[i].movedCountAt)) := by
  intro fuel
  induction fuel with
  | zero => intro idx s out h; simp [moveLoop] at h
  | succ n ih =>
    intro idx s out h
    rw [moveLoop] at h
    by_cases hidx : idx < emails.length
    · rw [if_pos hidx] at h
      simp only at h
      by_cases hok : st.moveOk s.moveIdx = true
      · rw [if_pos hok] at h
        obtain ⟨nm', hmc, hss, hsi, hmv, hlc, hsc, hmi, hat, hnil, hhd, hjoin, hretry⟩ :=
          ih (idx + B) _ out h
        refine ⟨⟨(emails.drop idx).take B, idx, s.movedCount, st.moveOk s.moveIdx⟩ :: nm',
          ?_, hss, hsi, hmv, hlc, hsc, ?_, ?_, ?_, ?_, ?_, ?_⟩
        · simpa [List.append_assoc] using hmc
        · simp only [List.length_cons] at *; omega
        · intro c hc
          rcases List.mem_cons.1 hc with rfl | hc
          · rfl
          · simpa using hat c hc
        · intro hcontra; simp at hcontra
        · intro hne; exact ⟨rfl, rfl⟩
        · have hstep : List.take B (emails.drop idx) ++ emails.drop (idx + B)
              = emails.drop idx := by
            have h1 := List.take_append_drop B (emails.drop idx)
            rwa [List.drop_drop] at h1
          simp only [List.filter_cons, List.map_cons, List.flatten_cons]
          rw [if_pos hok]
          simp only [List.map_cons, List.flatten_cons, hjoin]
          exact hstep
        · intro i hi hfail
          match i with
          | 0 =>
            simp only [List.getElem_cons_zero] at hfail
            rw [hok] at hfail; cases hfail
          | (j + 1) =>
            simp only [List.getElem_cons_succ, List.getElem?_cons_succ]
            exact hretry j (by simpa using hi) (by simpa using hfail)
      · rw [if_neg hok] at h
        obtain ⟨nm', hmc, hss, hsi, hmv, hlc, hsc, hmi, hat, hnil, hhd, hjoin, hretry⟩ :=
          ih idx _ out h
        have hne' : nm' ≠ [] := by
          intro hcontra
          exact absurd (hnil hcontra) (Nat.not_le.2 hidx)
        refine ⟨⟨(emails.drop idx).take B, idx, s.movedCount, st.moveOk s.moveIdx⟩ :: nm',
          ?_, hss, hsi, hmv, hlc, hsc, ?_, ?_, ?_, ?_, ?_, ?_⟩
        · simpa [List.append_assoc] using hmc
        · simp only [List.length_cons] at *; omega
        · intro c hc
          rcases List.mem_cons.1 hc with rfl | hc
          · rfl
          · simpa using hat c hc
        · intro hcontra; simp at hcontra
        · intro hne; exact ⟨rfl, rfl⟩
        · have hfok : st.moveOk s.moveIdx = false := by
            cases hmo : st.moveOk s.moveIdx with
            | false => rfl
            | true => exact absurd hmo hok
          simp only [List.filter_cons]
          rw [if_neg (by simp [hfok])]
          exact hjoin
        · intro i hi hfail
          match i with
          | 0 =>
            obtain ⟨hhidx, hhchunk⟩ := hhd hne'
            obtain ⟨c0, nm'', rfl⟩ : ∃ c0 nm'', nm' = c0 :: nm'' := by
              cases nm' with
              | nil => exact absurd rfl hne'
              | cons c0 nm'' => exact ⟨c0, nm'', rfl⟩
            simp only [List.head_cons] at hhidx hhchunk
            have hc0at : c0.movedCountAt = s.movedCount := hat c0 (by simp)
            simp [hhidx, hhchunk, hc0at]
          | (j + 1) =>
            simp only [List.getElem_cons_succ, List.getElem?_cons_succ]
            exact hretry j (by simpa using hi) (by simpa using hfail)
    · rw [if_neg hidx] at h
      obtain rfl : s = out := by cases h; rfl
      refine ⟨[], by simp, rfl, rfl, rfl, rfl, rfl, by simp, by simp, ?_, ?_, ?_, ?_⟩
      · intro _; exact Nat.le_of_not_lt hidx
      · intro hne; exact absurd rfl hne
      · simp [List.drop_eq_nil_of_le (Nat.le_of_not_lt hidx)]
      · intro i hi; simp at hi

/-- Trace specification of a completed `moveEmailsToArchive` call: the
archive-existence check (one `connection.list()` call) always happens; when
the archive is absent no move is issued; when it is present the successful
chunks concatenate to exactly the page handed in; pagination-related state is
untouched either way, and failed chunks are always resubmitted identically. -/
theorem moveEmailsToArchive_spec (st : Store) (B : Nat) (emails : List Nat)
    (fuel : Nat) (s s2 : RunState)
    (h : moveEmailsToArchive st B emails fuel s = some s2) :
    ∃ nm : List MoveCall,
      s2.moveCalls = s.moveCalls ++ nm ∧
      s2.startSeq = s.startSeq ∧
      s2.searchIdx = s.searchIdx ∧
      s2.movedCount = s.movedCount ∧
      s2.searchCalls = s.searchCalls ∧
      s2.listCalls = s.listCalls + 1 ∧
      (∀ c ∈ nm, c.movedCountAt = s.movedCount) ∧
      (archivePresent st = false → nm = []) ∧
      (archivePresent st = true →
        ((nm.filter MoveCall.ok).map MoveCall.chunk).flatten = emails) ∧
      (∀ i (h : i < nm.length), nm[i].ok = false →
        (nm[i + 1]?).map (fun c => (c.chunk, c.index, c.movedCountAt))
          = some (nm[i].chunk, nm[i].index, nm[i].movedCountAt)) := by
  rw [moveEmailsToArchive] at h
  by_cases hap : archivePresent st = true
  · rw [if_pos hap] at h
    obtain ⟨nm, hmc, hss, hsi, hmv, hlc, hsc, hmi, hat, hnil, hhd, hjoin, hretry⟩ :=
      moveLoop_spec st B emails fuel 0 _ s2 h
    refine ⟨nm, by simpa using hmc, hss, hsi, hmv, by simpa using hsc,
      by simpa using hlc, by simpa using hat, ?_, ?_, hretry⟩
    · intro hcontra; rw [hcontra] at hap; cases hap
    · intro _; simpa using hjoin
  · rw [if_neg hap] at h
    obtain rfl : ({ s with listCalls := s.listCalls + 1 } : RunState) = s2 := by
      cases h; rfl
    refine ⟨[], by simp, rfl, rfl, rfl, rfl, rfl, by simp, fun _ => rfl, ?_, ?_⟩
    · intro hpres; exact absurd hpres hap
    · intro i hi; simp at hi

/-- The last element of a list with a cons in front of a non-empty tail is the
last element of the tail. -/
theorem getLast?_cons_of_ne_nil {α : Type} (a : α) {l : List α} (h : l ≠ []) :
    (a :: l).getLast? = l.getLast? := by
  cases l with
  | nil => exact absurd rfl h
  | cons b t => rfl

/-- Trace specification of a completed pagination loop of `main` in
`src/src/main.ts`, for every store, batch size, fuel and starting state: the
search trace grows by a non-empty block `ns`; the i-th new search is issued at
`startSeq + i * B` with the cutoff recomputed from the wall clock at that call;
every new search except the last returned a non-empty page; a clean exit ends
on a successful empty page while a fatal exit ends on a failed search; the
moved-message counter grows by the total length of all returned pages; and the
archive-existence check ran once per non-empty page. -/
theorem mainLoop_spec (st : Store) (B : Nat) :
    ∀ (fuel : Nat) (s out : RunState) (fat : Bool),
      mainLoop st B fuel s = some (out, fat) →
      ∃ ns : List SearchCall,
        out.searchCalls = s.searchCalls ++ ns ∧
        ns ≠ [] ∧
        out.searchIdx = s.searchIdx + ns.length ∧
        (∀ i (h : i < ns.length),
            ns[i].startSeq = s.startSeq + i * B ∧
            ns[i].cutoff = computeCutoff (st.nowAt (s.searchIdx + i)) ∧
            ns[i].ok = st.searchOk (s.searchIdx + i)) ∧
        (∀ i (h : i + 1 < ns.length), nonEmptyPage ns[i] = true) ∧
        (fat = false → (ns.getLast?).map (fun c => (c.ok, c.pageLen)) = some (true, 0)) ∧
        (fat = true → (ns.getLast?).map SearchCall.ok = some false) ∧
        out.movedCount = s.movedCount + (ns.map SearchCall.pageLen).sum ∧
        out.listCalls = s.listCalls + ns.countP nonEmptyPage := by
  intro fuel
  induction fuel with
  | zero => intro s out fat h; simp [mainLoop] at h
  | succ n ih =>
    intro s out fat h
    by_cases hso : st.searchOk s.searchIdx = true
    · simp only [mainLoop, fetchEmails, hso, if_true] at h
      by_cases hlen : (st.searchResult (computeCutoff (st.nowAt s.searchIdx)) s.startSeq).length = 0
      · rw [if_neg (not_not_intro hlen)] at h
        simp only [Option.some.injEq, Prod.mk.injEq] at h
        obtain ⟨h1, h2⟩ := h
        subst h1; subst h2
        refine ⟨[⟨s.startSeq, computeCutoff (st.nowAt s.searchIdx), true,
            (st.searchResult (computeCutoff (st.nowAt s.searchIdx)) s.startSeq).length⟩],
          rfl, by simp, by simp, ?_, ?_, ?_, ?_, ?_, ?_⟩
        · intro i hi
          match i with
          | 0 => exact ⟨by simp, by simp, by simp [hso]⟩
          | (j + 1) => simp at hi
        · intro i hi; simp at hi
        · intro _; simp [hlen]
        · intro hcontra; cases hcontra
        · simp [hlen]
        · simp [nonEmptyPage, hlen]
      · rw [if_pos hlen] at h
        cases hm : moveEmailsToArchive st B
            (st.searchResult (computeCutoff (st.nowAt s.searchIdx)) s.startSeq) n
            { s with searchIdx := s.searchIdx + 1,
                     searchCalls := s.searchCalls ++
                       [⟨s.startSeq, computeCutoff (st.nowAt s.searchIdx), true,
                         (st.searchResult (computeCutoff (st.nowAt s.searchIdx)) s.startSeq).length⟩] } with
        | none => rw [hm] at h; cases h
        | some s2 =>
          rw [hm] at h
          obtain ⟨nm1, hmc, hss, hsi, hmv, hsc, hlc, hat1, habs1, hpres1, hretry1⟩ :=
            moveEmailsToArchive_spec st B _ n _ s2 hm
          obtain ⟨ns', hsc', hne', hsi', hform', hpair', hclean', hfatal', hmv', hlc'⟩ :=
            ih _ out fat h
          have hs3sc : s2.searchCalls = s.searchCalls ++
              [⟨s.startSeq, computeCutoff (st.nowAt s.searchIdx), true,
                (st.searchResult (computeCutoff (st.nowAt s.searchIdx)) s.startSeq).length⟩] := by
            rw [hsc]
          have hs3si : s2.searchIdx = s.searchIdx + 1 := by rw [hsi]
          have hs3ss : s2.startSeq = s.startSeq := by rw [hss]
          have hs3mv : s2.movedCount = s.movedCount := by rw [hmv]
          have hs3lc : s2.listCalls = s.listCalls + 1 := by rw [hlc]
          refine ⟨⟨s.startSeq, computeCutoff (st.nowAt s.searchIdx), true,
              (st.searchResult (computeCutoff (st.nowAt s.searchIdx)) s.startSeq).length⟩ :: ns',
            ?_, by simp, ?_, ?_, ?_, ?_, ?_, ?_, ?_⟩
          · rw [hsc']; simp only [hs3sc]
            simp [List.append_assoc]
          · rw [hsi']; simp only [hs3si]
            simp [List.length_cons]; omega
          · intro i hi
            match i with
            | 0 => exact ⟨by simp, by simp, by simp [hso]⟩
            | (j + 1) =>
              obtain ⟨hf1, hf2, hf3⟩ := hform' j (by simpa using hi)
              refine ⟨?_, ?_, ?_⟩
              · simp only [List.getElem_cons_succ]
                rw [hf1]; simp only [hs3ss, hs3si]
                ring
              · simp only [List.getElem_cons_succ]
                rw [hf2]; simp only [hs3si]
                have : s.searchIdx + 1 + j = s.searchIdx + (j + 1) := by omega
                rw [this]
              · simp only [List.getElem_cons_succ]
                rw [hf3]; simp only [hs3si]
                have : s.searchIdx + 1 + j = s.searchIdx + (j + 1) := by omega
                rw [this]
          · intro i hi
            match i with
            | 0 => simp [nonEmptyPage, hlen]
            | (j + 1) =>
              simp only [List.getElem_cons_succ]
              exact hpair' j (by simpa using hi)
          · intro hf
            rw [getLast?_cons_of_ne_nil _ hne']
            exact hclean' hf
          · intro hf
            rw [getLast?_cons_of_ne_nil _ hne']
            exact hfatal' hf
          · rw [hmv']
            dsimp only
            rw [hs3mv]
            simp only [List.map_cons, List.sum_cons]
            omega
          · rw [hlc']
            have hgoal : s2.listCalls + List.countP nonEmptyPage ns'
                = s.listCalls + List.countP nonEmptyPage
                    (⟨s.startSeq, computeCutoff (st.nowAt s.searchIdx), true,
                      (st.searchResult (computeCutoff (st.nowAt s.searchIdx)) s.startSeq).length⟩
                      :: ns') := by
              rw [hs3lc, List.countP_cons,
                if_pos (show nonEmptyPage _ = true by simp [nonEmptyPage, hlen])]
              omega
            exact hgoal
    · have hso' : st.searchOk s.searchIdx = false := by simpa using hso
      simp only [mainLoop, fetchEmails, hso', Bool.false_eq_true, if_false] at h
      simp only [Option.some.injEq, Prod.mk.injEq] at h
      obtain ⟨h1, h2⟩ := h
      subst h1; subst h2
      refine ⟨[⟨s.startSeq, computeCutoff (st.nowAt s.searchIdx), false, 0⟩],
        rfl, by simp, by simp, ?_, ?_, ?_, ?_, by simp, ?_⟩
      · intro i hi
        match i with
        | 0 => exact ⟨by simp, by simp, by simp [hso']⟩
        | (j + 1) => simp at hi
      · intro i hi; simp at hi
      · intro hcontra; cases hcontra
      · intro _; simp
      · simp [nonEmptyPage]

/-- A list of move calls whose recorded counter values are all the same value
is pairwise monotone in that field. -/
theorem pairwise_le_of_const {l : List MoveCall} {v : Nat}
    (h : ∀ c ∈ l, c.movedCountAt = v) :
    List.Pairwise (fun a b => a.movedCountAt ≤ b.movedCountAt) l := by
  induction l with
  | nil => exact List.Pairwise.nil
  | cons a t ihl =>
    refine List.Pairwise.cons ?_ (ihl fun c hc => h c (List.mem_cons_of_mem a hc))
    intro b hb
    rw [h a (List.mem_cons_self a t), h b (List.mem_cons_of_mem a hb)]

/-- Move-trace specification of a completed pagination loop of `main` in
`src/src/main.ts`: when the archive container is absent no move request is
ever issued; when it is present the final counter value accounts exactly for
the confirmed-successful chunks; and the counter values recorded at the move
calls never decrease along the trace. -/
theorem mainLoop_moves (st : Store) (B : Nat) :
    ∀ (fuel : Nat) (s out : RunState) (fat : Bool),
      mainLoop st B fuel s = some (out, fat) →
      ∃ nm : List MoveCall,
        out.moveCalls = s.moveCalls ++ nm ∧
        (archivePresent st = false → nm = []) ∧
        (archivePresent st = true →
          out.movedCount = s.movedCount
            + ((nm.filter MoveCall.ok).map (fun c => c.chunk.length)).sum) ∧
        (∀ c ∈ nm, s.movedCount ≤ c.movedCountAt) ∧
        List.Pairwise (fun a b => a.movedCountAt ≤ b.movedCountAt) nm := by
  intro fuel
  induction fuel with
  | zero => intro s out fat h; simp [mainLoop] at h
  | succ n ih =>
    intro s out fat h
    by_cases hso : st.searchOk s.searchIdx = true
    · simp only [mainLoop, fetchEmails, hso, if_true] at h
      by_cases hlen : (st.searchResult (computeCutoff (st.nowAt s.searchIdx)) s.startSeq).length = 0
      · rw [if_neg (not_not_intro hlen)] at h
        simp only [Option.some.injEq, Prod.mk.injEq] at h
        obtain ⟨h1, h2⟩ := h
        subst h1; subst h2
        exact ⟨[], by simp, fun _ => rfl, fun _ => by simp, fun c hc => by simp at hc,
          List.Pairwise.nil⟩
      · rw [if_pos hlen] at h
        cases hm : moveEmailsToArchive st B
            (st.searchResult (computeCutoff (st.nowAt s.searchIdx)) s.startSeq) n
            { s with searchIdx := s.searchIdx + 1,
                     searchCalls := s.searchCalls ++
                       [⟨s.startSeq, computeCutoff (st.nowAt s.searchIdx), true,
                         (st.searchResult (computeCutoff (st.nowAt s.searchIdx)) s.startSeq).length⟩] } with
        | none => rw [hm] at h; cases h
        | some s2 =>
          rw [hm] at h
          obtain ⟨nm1, hmc, hss, hsi, hmv, hsc, hlc, hat1, habs1, hpres1, hretry1⟩ :=
            moveEmailsToArchive_spec st B _ n _ s2 hm
          obtain ⟨nm2, hmc', habs', hpres', hbound', hpair'⟩ := ih _ out fat h
          have hs1mv : s2.movedCount = s.movedCount := by rw [hmv]
          have hs1mc : s2.moveCalls = s.moveCalls ++ nm1 := by rw [hmc]
          have hat1' : ∀ c ∈ nm1, c.movedCountAt = s.movedCount := by
            intro c hc; rw [hat1 c hc]
          refine ⟨nm1 ++ nm2, ?_, ?_, ?_, ?_, ?_⟩
          · rw [hmc']
            dsimp only
            rw [hs1mc, List.append_assoc]
          · intro habs
            rw [habs1 habs, habs' habs]
            rfl
          · intro hpres
            rw [hpres' hpres]
            dsimp only
            rw [hs1mv]
            have hlen1 : (st.searchResult (computeCutoff (st.nowAt s.searchIdx)) s.startSeq).length
                = ((nm1.filter MoveCall.ok).map (fun c => c.chunk.length)).sum := by
              rw [← hpres1 hpres, List.length_flatten, List.map_map]
              rfl
            rw [hlen1]
            simp [List.filter_append, List.map_append, List.sum_append]
            omega
          · intro c hc
            rcases List.mem_append.1 hc with hc1 | hc2
            · rw [hat1' c hc1]
            · have := hbound' c hc2
              dsimp only at this
              rw [hs1mv] at this
              omega
          · rw [List.pairwise_append]
            refine ⟨pairwise_le_of_const hat1', hpair', ?_⟩
            intro a ha b hb
            have hbv := hbound' b hb
            dsimp only at hbv
            rw [hs1mv] at hbv
            rw [hat1' a ha]
            omega
    · have hso' : st.searchOk s.searchIdx = false := by simpa using hso
      simp only [mainLoop, fetchEmails, hso', Bool.false_eq_true, if_false] at h
      simp only [Option.some.injEq, Prod.mk.injEq] at h
      obtain ⟨h1, h2⟩ := h
      subst h1; subst h2
      exact ⟨[], by simp, fun _ => rfl, fun _ => by simp, fun c hc => by simp at hc,
        List.Pairwise.nil⟩

/-- Case analysis of a completed `runMain`: the `finally` block runs `logout`
exactly once and the exit status depends only on whether `logout` throws; a
connect or mailbox-open failure ends the run fatal with empty traces; and
otherwise the observable traces are exactly those of the pagination loop
started from the initial state. -/
theorem runMain_cases (st : Store) (B fuel : Nat) (r : RunResult)
    (h : runMain st B fuel = some r) :
    r.logoutCalls = 1 ∧
    r.exitCode = (if st.logoutOk then 0 else 1) ∧
    r.runCutoff = computeCutoff st.now0 ∧
    ((st.connectOk = false ∨ st.openOk = false) →
      r.fatal = true ∧ r.searchCalls = [] ∧ r.moveCalls = [] ∧
      r.movedCount = 0 ∧ r.listCalls = 0) ∧
    (st.connectOk = true → st.openOk = true →
      ∃ out fat, mainLoop st B fuel initState = some (out, fat) ∧
        r.searchCalls = out.searchCalls ∧ r.moveCalls = out.moveCalls ∧
        r.movedCount = out.movedCount ∧ r.listCalls = out.listCalls ∧
        r.fatal = fat) := by
  rw [runMain] at h
  by_cases hc : st.connectOk = true
  · by_cases ho : st.openOk = true
    · simp only [hc, ho, if_true] at h
      cases hml : mainLoop st B fuel initState with
      | none => rw [hml] at h; cases h
      | some p =>
        rw [hml] at h
        obtain ⟨out, fat⟩ := p
        simp only [Option.some.injEq] at h
        subst h
        refine ⟨rfl, rfl, rfl, ?_, ?_⟩
        · intro hcase
          rcases hcase with hno | hno
          · rw [hno] at hc; cases hc
          · rw [hno] at ho; cases ho
        · exact fun hc' ho' => ⟨out, fat, rfl, rfl, rfl, rfl, rfl, rfl⟩
    · have ho' : st.openOk = false := by simpa using ho
      simp only [hc, ho', Bool.false_eq_true, if_true, if_false] at h
      simp only [Option.some.injEq] at h
      subst h
      refine ⟨rfl, rfl, rfl, ?_, ?_⟩
      · intro _; exact ⟨rfl, rfl, rfl, rfl, rfl⟩
      · intro hc2 ho2; rw [ho2] at ho'; cases ho'
  · have hc' : st.connectOk = false := by simpa using hc
    simp only [hc', Bool.false_eq_true, if_false] at h
    simp only [Option.some.injEq] at h
    subst h
    refine ⟨rfl, rfl, rfl, ?_, ?_⟩
    · intro _; exact ⟨rfl, rfl, rfl, rfl, rfl⟩
    · intro hc2 ho2; rw [hc2] at hc'; cases hc'

/-- Trace specification of a completed `fetchAllOldEmails` pagination loop of
the `part_000` iteration: the search trace grows by a non-empty block `new`;
the i-th new search is issued at `startSeq + i * B` with a cutoff recomputed
from the wall clock at that call; every new search except the last succeeded
and returned a page of at least the window size; a clean exit ends on a
successful page strictly shorter than the window size, a fatal exit on a
failed search. -/
theorem fetchAllLoop_spec (st : Store) (B : Nat) :
    ∀ (fuel s0 k : Nat) (acc : List Nat) (calls : List SearchCall)
      (fat : Bool) (emails : List Nat) (calls' : List SearchCall),
      fetchAllLoop st B fuel s0 k acc calls = some (fat, emails, calls') →
      ∃ new : List SearchCall,
        calls' = calls ++ new ∧
        new ≠ [] ∧
        (∀ i (h : i < new.length),
            new[i].startSeq = s0 + i * B ∧
            new[i].cutoff = computeCutoff (st.nowAt (k + i)) ∧
            new[i].ok = st.searchOk (k + i)) ∧
        (∀ i (h : i + 1 < new.length), new[i].ok = true ∧ B ≤ new[i].pageLen) ∧
        (fat = false → ∀ hne : new ≠ [],
          (new.getLast hne).ok = true ∧ (new.getLast hne).pageLen < B) ∧
        (fat = true → ∀ hne : new ≠ [], (new.getLast hne).ok = false) := by
  intro fuel
  induction fuel with
  | zero => intro s0 k acc calls fat emails calls' h; simp [fetchAllLoop] at h
  | succ n ih =>
    intro s0 k acc calls fat emails calls' h
    by_cases hso : st.searchOk k = true
    · simp only [fetchAllLoop, fetchEmails, hso, if_true] at h
      by_cases hlt : (st.searchResult (computeCutoff (st.nowAt k)) s0).length < B
      · rw [if_pos hlt] at h
        simp only [Option.some.injEq, Prod.mk.injEq] at h
        obtain ⟨hf, he, hc⟩ := h
        subst hf; subst hc
        refine ⟨[⟨s0, computeCutoff (st.nowAt k), true,
            (st.searchResult (computeCutoff (st.nowAt k)) s0).length⟩],
          rfl, by simp, ?_, ?_, ?_, ?_⟩
        · intro i hi
          match i with
          | 0 => exact ⟨by simp, by simp, by simp [hso]⟩
          | (j + 1) => simp at hi
        · intro i hi; simp at hi
        · intro _ hne; exact ⟨rfl, hlt⟩
        · intro hft; cases hft
      · rw [if_neg hlt] at h
        obtain ⟨new', hc', hne', hform', hpair', hclean', hfatal'⟩ :=
          ih (s0 + B) (k + 1) _ _ fat emails calls' h
        refine ⟨⟨s0, computeCutoff (st.nowAt k), true,
            (st.searchResult (computeCutoff (st.nowAt k)) s0).length⟩ :: new',
          ?_, by simp, ?_, ?_, ?_, ?_⟩
        · rw [hc']; simp [List.append_assoc]
        · intro i hi
          match i with
          | 0 => exact ⟨by simp, by simp, by simp [hso]⟩
          | (j + 1) =>
            obtain ⟨hf1, hf2, hf3⟩ := hform' j (by simpa using hi)
            refine ⟨?_, ?_, ?_⟩
            · simp only [List.getElem_cons_succ]
              rw [hf1]; ring
            · simp only [List.getElem_cons_succ]
              rw [hf2]
              have : k + 1 + j = k + (j + 1) := by omega
              rw [this]
            · simp only [List.getElem_cons_succ]
              rw [hf3]
              have : k + 1 + j = k + (j + 1) := by omega
              rw [this]
        · intro i hi
          match i with
          | 0 => exact ⟨rfl, Nat.le_of_not_lt hlt⟩
          | (j + 1) =>
            simp only [List.getElem_cons_succ]
            exact hpair' j (by simpa using hi)
        · intro hff hne
          rw [List.getLast_cons hne']
          exact hclean' hff hne'
        · intro hff hne
          rw [List.getLast_cons hne']
          exact hfatal' hff hne'
    · have hso' : st.searchOk k = false := by simpa using hso
      simp only [fetchAllLoop, fetchEmails, hso', Bool.false_eq_true, if_false] at h
      simp only [Option.some.injEq, Prod.mk.injEq] at h
      obtain ⟨hf, he, hc⟩ := h
      subst hf; subst hc
      refine ⟨[⟨s0, computeCutoff (st.nowAt k), false, 0⟩], rfl, by simp, ?_, ?_, ?_, ?_⟩
      · intro i hi
        match i with
        | 0 => exact ⟨by simp, by simp, by simp [hso']⟩
        | (j + 1) => simp at hi
      · intro i hi; simp at hi
      · intro hft; cases hft
      · intro _ hne; rfl


/-- One unfolding step of the `part_000` paginator over the `uniformStore`:
with `m + 1 - s` identifiers remaining, a short page ends the loop and a full
page recurses at `s + B`. -/
theorem fetchAllLoop_uniform_step (m B n s k : Nat) (acc : List Nat)
    (calls : List SearchCall) :
    fetchAllLoop (uniformStore m B) B (n + 1) s k acc calls
      = (if m + 1 - s < B
         then some (false, acc ++ List.range' s (m + 1 - s),
           calls ++ [⟨s, computeCutoff 0, true, m + 1 - s⟩])
         else fetchAllLoop (uniformStore m B) B n (s + B) (k + 1)
           (acc ++ List.range' s B) (calls ++ [⟨s, computeCutoff 0, true, B⟩])) := by
  by_cases hr : m + 1 - s < B
  · have hmin : min B (m + 1 - s) = m + 1 - s := Nat.min_eq_right (Nat.le_of_lt hr)
    rw [if_pos hr]
    simp [fetchAllLoop, fetchEmails, uniformStore, hmin, List.length_range', hr]
  · have hBr : B ≤ m + 1 - s := Nat.le_of_not_lt hr
    have hmin : min B (m + 1 - s) = B := Nat.min_eq_left hBr
    rw [if_neg hr]
    simp [fetchAllLoop, fetchEmails, uniformStore, hmin, List.length_range', hr]

/-- Exact page accounting for the `part_000` paginator over a mailbox of `m`
messages all matching the cutoff (the `uniformStore`): starting a window at
`s`, the loop returns all remaining identifiers, issues exactly
`(m + 1 - s) / B + 1` further search requests, and the final page has length
`(m + 1 - s) % B`. -/
theorem fetchAllLoop_uniform (m B : Nat) (hB : 1 ≤ B) :
    ∀ (fuel s k : Nat) (acc : List Nat) (calls : List SearchCall),
      (m + 1 - s) / B + 1 ≤ fuel →
      ∃ new : List SearchCall,
        fetchAllLoop (uniformStore m B) B fuel s k acc calls
          = some (false, acc ++ List.range' s (m + 1 - s), calls ++ new) ∧
        new.length = (m + 1 - s) / B + 1 ∧
        (new.getLast?).map SearchCall.pageLen = some ((m + 1 - s) % B) := by
  intro fuel
  induction fuel with
  | zero =>
    intro s k acc calls hf
    exact absurd hf (Nat.not_succ_le_zero _)
  | succ n ih =>
    intro s k acc calls hf
    have hB0 : 0 < B := hB
    rw [fetchAllLoop_uniform_step]
    by_cases hr : m + 1 - s < B
    · rw [if_pos hr]
      refine ⟨[⟨s, computeCutoff 0, true, m + 1 - s⟩], rfl, ?_, ?_⟩
      · simp [Nat.div_eq_of_lt hr]
      · simp [Nat.mod_eq_of_lt hr]
    · rw [if_neg hr]
      have hBr : B ≤ m + 1 - s := Nat.le_of_not_lt hr
      have hsub : m + 1 - (s + B) = (m + 1 - s) - B := by omega
      have hdiv : (m + 1 - s) / B = ((m + 1 - s) - B) / B + 1 := by
        have h1 : (m + 1 - s) - B + B = m + 1 - s := Nat.sub_add_cancel hBr
        have h2 := Nat.add_div_right ((m + 1 - s) - B) hB0
        rw [h1] at h2
        rw [h2]
      have hmod : (m + 1 - s) % B = ((m + 1 - s) - B) % B := by
        have h1 : (m + 1 - s) - B + B = m + 1 - s := Nat.sub_add_cancel hBr
        have h2 := Nat.add_mod_right ((m + 1 - s) - B) B
        rw [h1] at h2
        rw [← h2]
      have hf' : (m + 1 - (s + B)) / B + 1 ≤ n := by
        rw [hsub]
        omega
      obtain ⟨new', heq', hlen', hlast'⟩ :=
        ih (s + B) (k + 1) (acc ++ List.range' s B)
          (calls ++ [⟨s, computeCutoff 0, true, B⟩]) hf'
      have hne' : new' ≠ [] := by
        intro hcontra
        rw [hcontra] at hlen'
        simp at hlen'
      refine ⟨⟨s, computeCutoff 0, true, B⟩ :: new', ?_, ?_, ?_⟩
      · rw [heq']
        have hacc : (acc ++ List.range' s B) ++ List.range' (s + B) (m + 1 - (s + B))
            = acc ++ List.range' s (m + 1 - s) := by
          rw [List.append_assoc, hsub]
          congr 1
          have hra := List.range'_append s B ((m + 1 - s) - B) 1
          simp only [one_mul, Nat.mul_one] at hra
          rw [hra]
          congr 1
          omega
        rw [hacc]
        simp [List.append_assoc]
      · simp only [List.length_cons, hlen', hsub, hdiv]
      · rw [getLast?_cons_of_ne_nil _ hne', hlast', hsub, hmod]

/-- Case analysis of a completed `runMainV0` (the `part_000` `main`): `logout`
runs exactly once, the exit status depends only on whether `logout` throws,
and the archive-existence check runs at most once in the whole run. -/
theorem runMainV0_cases (st : Store) (B fuel : Nat) (r : RunResultV0)
    (h : runMainV0 st B fuel = some r) :
    r.logoutCalls = 1 ∧ r.exitCode = exitCodeOf st ∧ r.listCalls ≤ 1 := by
  rw [runMainV0] at h
  by_cases hc : st.connectOk = true
  · rw [if_pos hc] at h
    by_cases ho : st.openOk = true
    · rw [if_pos ho] at h
      cases hfa : fetchAllOldEmails st B fuel with
      | none => rw [hfa] at h; cases h
      | some t =>
        rw [hfa] at h
        obtain ⟨fat, emails, calls⟩ := t
        dsimp only at h
        cases fat with
        | true =>
          rw [if_pos rfl] at h
          simp only [Option.some.injEq] at h
          subst h
          exact ⟨rfl, rfl, by simp⟩
        | false =>
          rw [if_neg (by simp)] at h
          by_cases hne : emails.length ≠ 0
          · rw [if_pos hne] at h
            cases hm : moveEmailsToArchive st B emails fuel
                { startSeq := 1, searchIdx := calls.length, moveIdx := 0,
                  movedCount := 0, listCalls := 0,
                  searchCalls := calls, moveCalls := [] } with
            | none => rw [hm] at h; cases h
            | some s =>
              rw [hm] at h
              simp only [Option.some.injEq] at h
              subst h
              obtain ⟨nm, _, _, _, _, _, hlc, _, _, _, _⟩ :=
                moveEmailsToArchive_spec st B emails fuel _ s hm
              refine ⟨rfl, rfl, ?_⟩
              show s.listCalls ≤ 1
              rw [hlc]
          · rw [if_neg hne] at h
            simp only [Option.some.injEq] at h
            subst h
            exact ⟨rfl, rfl, by simp⟩
    · have ho' : st.openOk = false := by simpa using ho
      rw [ho'] at h
      rw [if_neg (by simp)] at h
      simp only [Option.some.injEq] at h
      subst h
      exact ⟨rfl, rfl, by simp⟩
  · have hc' : st.connectOk = false := by simpa using hc
    rw [hc'] at h
    rw [if_neg (by simp)] at h
    simp only [Option.some.injEq] at h
    subst h
    exact ⟨rfl, rfl, by simp⟩

/-- Minimal clean store: the listing contains the archive container in
upper-case form `ARCHIVE`, every operation succeeds, and every search returns
the empty page. -/
def emptyStore : Store :=
  { now0 := 0, nowAt := fun _ => 0, searchOk := fun _ => true,
    searchResult := fun _ _ => [], mailboxPaths := ["INBOX", "ARCHIVE"],
    moveOk := fun _ => true, connectOk := true, openOk := true,
    logoutOk := true, statusMessages := 0 }

/-- Store whose mailbox answers one page of a single identifier at window
start 1 and nothing afterwards, with the archive container present and all
operations succeeding. With batch size 2 the single page is strictly shorter
than the window. -/
def shortPageStore : Store :=
  { now0 := 0, nowAt := fun _ => 0, searchOk := fun _ => true,
    searchResult := fun _ s => if s = 1 then [10] else [],
    mailboxPaths := ["INBOX", "Archive"], moveOk := fun _ => true,
    connectOk := true, openOk := true, logoutOk := true, statusMessages := 1 }

/-- Store with one matching message but no archive container in the listing;
all store operations succeed. -/
def noArchiveStore : Store :=
  { now0 := 0, nowAt := fun _ => 0, searchOk := fun _ => true,
    searchResult := fun _ s => if s = 1 then [7] else [],
    mailboxPaths := ["INBOX", "Sent"], moveOk := fun _ => true,
    connectOk := true, openOk := true, logoutOk := true, statusMessages := 1 }

/-- Store whose wall clock crosses a day boundary between the first and the
second search call: the first search happens at the start of day 7, the
second at the start of day 8. -/
def clockStore : Store :=
  { now0 := 7 * 1440, nowAt := fun k => 7 * 1440 + k * 1440,
    searchOk := fun _ => true,
    searchResult := fun _ s => if s = 1 then [1] else [],
    mailboxPaths := ["INBOX", "Archive"], moveOk := fun _ => true,
    connectOk := true, openOk := true, logoutOk := true, statusMessages := 1 }

/-- Store answering two consecutive non-empty pages (sizes 2 and 1 under
batch size 2), with the archive container present and all operations
succeeding. -/
def twoPageStore : Store :=
  { now0 := 0, nowAt := fun _ => 0, searchOk := fun _ => true,
    searchResult := fun _ s => if s = 1 then [1, 2] else if s = 3 then [3] else [],
    mailboxPaths := ["INBOX", "Archive"], moveOk := fun _ => true,
    connectOk := true, openOk := true, logoutOk := true, statusMessages := 3 }

/-- Store whose connect call fails; logout succeeds. -/
def connFailStore : Store :=
  { now0 := 0, nowAt := fun _ => 0, searchOk := fun _ => true,
    searchResult := fun _ _ => [], mailboxPaths := ["INBOX", "Archive"],
    moveOk := fun _ => true, connectOk := false, openOk := true,
    logoutOk := true, statusMessages := 0 }

/-- Store for a clean run whose logout call throws. -/
def badLogoutStore : Store :=
  { now0 := 0, nowAt := fun _ => 0, searchOk := fun _ => true,
    searchResult := fun _ _ => [], mailboxPaths := ["INBOX", "Archive"],
    moveOk := fun _ => true, connectOk := true, openOk := true,
    logoutOk := false, statusMessages := 0 }

/-- Store whose first move request fails and whose later move requests
succeed, for exercising the chunk retry path. -/
def retryStore : Store :=
  { now0 := 0, nowAt := fun _ => 0, searchOk := fun _ => true,
    searchResult := fun _ s => if s = 1 then [4, 5, 6] else [],
    mailboxPaths := ["INBOX", "Archive"], moveOk := fun i => i != 0,
    connectOk := true, openOk := true, logoutOk := true, statusMessages := 3 }

/-- Combined observable specification of every completed run of `main` in
`src/src/main.ts`, for every store, batch size and fuel: teardown and exit
status facts, the per-index shape of the search trace, its termination
behavior, the counter accounting on both the search side and the move side,
and the per-page archive check count. -/
theorem runMain_spec (st : Store) (B fuel : Nat) (r : RunResult)
    (h : runMain st B fuel = some r) :
    r.logoutCalls = 1 ∧
    r.exitCode = (if st.logoutOk then 0 else 1) ∧
    r.runCutoff = computeCutoff st.now0 ∧
    (∀ i (hi : i < r.searchCalls.length),
        r.searchCalls[i].startSeq = 1 + i * B ∧
        r.searchCalls[i].cutoff = computeCutoff (st.nowAt i) ∧
        r.searchCalls[i].ok = st.searchOk i) ∧
    (∀ i (hi : i + 1 < r.searchCalls.length), nonEmptyPage r.searchCalls[i] = true) ∧
    (r.fatal = false → st.connectOk = true → st.openOk = true →
      (r.searchCalls.getLast?).map (fun c => (c.ok, c.pageLen)) = some (true, 0)) ∧
    (r.fatal = true → st.connectOk = true → st.openOk = true →
      (r.searchCalls.getLast?).map SearchCall.ok = some false) ∧
    r.movedCount = (r.searchCalls.map SearchCall.pageLen).sum ∧
    r.listCalls = r.searchCalls.countP nonEmptyPage ∧
    (st.connectOk = true → st.openOk = true → r.searchCalls ≠ []) ∧
    ((st.connectOk = false ∨ st.openOk = false) → r.fatal = true ∧ r.searchCalls = []) ∧
    (st.connectOk = true → st.openOk = true → (∀ k, st.searchOk k = true) →
      r.fatal = false) ∧
    (archivePresent st = false → r.moveCalls = []) ∧
    (archivePresent st = true →
      r.movedCount = ((r.moveCalls.filter MoveCall.ok).map (fun c => c.chunk.length)).sum) ∧
    List.Pairwise (fun a b => a.movedCountAt ≤ b.movedCountAt) r.moveCalls := by
  obtain ⟨hlo, hec, hrc, hdeg, hmain⟩ := runMain_cases st B fuel r h
  by_cases hc : st.connectOk = true
  · by_cases ho : st.openOk = true
    · obtain ⟨out, fat, hml, hsc, hmc, hmv, hlc, hfat⟩ := hmain hc ho
      obtain ⟨ns, hns, hne, hsi, hform, hpair, hclean, hfatal, hsum, hcount⟩ :=
        mainLoop_spec st B fuel initState out fat hml
      obtain ⟨nm, hnm, habs, hpres, hbound, hpw⟩ :=
        mainLoop_moves st B fuel initState out fat hml
      have hrs : r.searchCalls = ns := by
        rw [hsc, hns]; simp [initState]
      have hrm : r.moveCalls = nm := by
        rw [hmc, hnm]; simp [initState]
      have hform' : ∀ i (hi : i < ns.length),
          ns[i].startSeq = 1 + i * B ∧
          ns[i].cutoff = computeCutoff (st.nowAt i) ∧
          ns[i].ok = st.searchOk i := by
        intro i hi
        obtain ⟨hf1, hf2, hf3⟩ := hform i hi
        refine ⟨?_, ?_, ?_⟩
        · rw [hf1]; simp [initState]
        · rw [hf2]; simp [initState]
        · rw [hf3]; simp [initState]
      refine ⟨hlo, hec, hrc, ?_, ?_, ?_, ?_, ?_, ?_, ?_, ?_, ?_, ?_, ?_, ?_⟩
      · rw [hrs]
        exact hform'
      · rw [hrs]
        exact hpair
      · intro hff _ _
        rw [hrs]
        rw [hfat] at hff
        exact hclean hff
      · intro hff _ _
        rw [hrs]
        rw [hfat] at hff
        exact hfatal hff
      · rw [hmv, hsum, hrs]
        simp [initState]
      · rw [hlc, hcount, hrs]
        simp [initState]
      · intro _ _
        rw [hrs]; exact hne
      · intro hor
        rcases hor with hno | hno
        · rw [hno] at hc; cases hc
        · rw [hno] at ho; cases ho
      · intro _ _ hall
        rw [hfat]
        cases hfs : fat with
        | false => rfl
        | true =>
          exfalso
          have hl := hfatal hfs
          rw [List.getLast?_eq_getElem? ns] at hl
          have hlennz : 0 < ns.length := by
            cases hns0 : ns with
            | nil => exact absurd hns0 hne
            | cons a t => simp
          have hlt : ns.length - 1 < ns.length := by omega
          rw [List.getElem?_eq_getElem hlt] at hl
          simp only [Option.map_some', Option.some.injEq] at hl
          have hok := (hform' (ns.length - 1) hlt).2.2
          rw [hall (ns.length - 1)] at hok
          rw [hok] at hl
          cases hl
      · intro hab
        rw [hrm]
        exact habs hab
      · intro hab
        rw [hmv, hrm]
        have := hpres hab
        rw [this]
        simp [initState]
      · rw [hrm]
        exact hpw
    · have ho' : st.openOk = false := by simpa using ho
      obtain ⟨hf, hsc, hmc, hmv, hlc⟩ := hdeg (Or.inr ho')
      refine ⟨hlo, hec, hrc, ?_, ?_, ?_, ?_, ?_, ?_, ?_, ?_, ?_, ?_, ?_, ?_⟩
      · rw [hsc]; intro i hi; simp at hi
      · rw [hsc]; intro i hi; simp at hi
      · intro hff; rw [hf] at hff; cases hff
      · intro _ _ ho2; rw [ho2] at ho'; cases ho'
      · rw [hmv, hsc]; simp
      · rw [hlc, hsc]; simp
      · intro _ ho2; rw [ho2] at ho'; cases ho'
      · intro _; exact ⟨hf, hsc⟩
      · intro _ ho2; rw [ho2] at ho'; cases ho'
      · intro _; exact hmc
      · intro _; rw [hmv, hmc]; simp
      · rw [hmc]; exact List.Pairwise.nil
  · have hc' : st.connectOk = false := by simpa using hc
    obtain ⟨hf, hsc, hmc, hmv, hlc⟩ := hdeg (Or.inl hc')
    refine ⟨hlo, hec, hrc, ?_, ?_, ?_, ?_, ?_, ?_, ?_, ?_, ?_, ?_, ?_, ?_⟩
    · rw [hsc]; intro i hi; simp at hi
    · rw [hsc]; intro i hi; simp at hi
    · intro hff; rw [hf] at hff; cases hff
    · intro _ hc2 _; rw [hc2] at hc'; cases hc'
    · rw [hmv, hsc]; simp
    · rw [hlc, hsc]; simp
    · intro hc2 _; rw [hc2] at hc'; cases hc'
    · intro _; exact ⟨hf, hsc⟩
    · intro hc2 _; rw [hc2] at hc'; cases hc'
    · intro _; exact hmc
    · intro _; rw [hmv, hmc]; simp
    · rw [hmc]; exact List.Pairwise.nil

/-- Concrete observable outcome of `runMain emptyStore 2 10`: one search
returning the empty page, no moves, clean exit. -/
def emptyRun : RunResult :=
  ⟨0, 0, 0, 0, 1, 0, [⟨1, 0, true, 0⟩], [], false⟩

/-- The search trace of a run against `emptyStore`. -/
def emptyCalls : List SearchCall := [⟨1, 0, true, 0⟩]

/-- Concrete observable outcome of `runMain twoPageStore 2 10`: pages of
lengths 2, 1 and 0, two chunk moves, two archive checks, clean exit. -/
def twoPageRun : RunResult :=
  ⟨0, 3, 3, 2, 1, 0,
   [⟨1, 0, true, 2⟩, ⟨3, 0, true, 1⟩, ⟨5, 0, true, 0⟩],
   [⟨[1, 2], 0, 0, true⟩, ⟨[3], 0, 2, true⟩], false⟩

/-- C1 counterexample: with window size 2, the pagination loop of
`src/src/main.ts` receives a page of length 1 — strictly shorter than the
window, and non-empty — and nevertheless issues a further search request at
1 + 2 = 3, contradicting the claim that a page strictly shorter than the
window size terminates pagination with no further search request. -/
theorem c1_counterexample :
    (runMain shortPageStore 2 10).map
        (fun r => r.searchCalls.map (fun c => (c.startSeq, c.pageLen)))
      = some [(1, 1), (3, 0)] ∧ (1 : Nat) < 2 :=
  ⟨by decide, by decide⟩

/-- C1 amended: in the `part_000` `fetchAllOldEmails` paginator the claimed
rule holds — every page except the last has length at least the window size,
after each such page the next request is issued at `start + size`, and a clean
run's last page is strictly shorter than the window size, which stops
pagination. In the pagination loop of `src/src/main.ts`, however, only a page
of length 0 terminates pagination: every page except the last is non-empty
(pages strictly shorter than the window but non-empty do not stop the loop),
after each such page another page is requested at `start + size`, and a clean
run ends on a page of length 0. -/
theorem c1_amended (st : Store) (B fuel : Nat) (r : RunResult)
    (h : runMain st B fuel = some r)
    (fat : Bool) (emails : List Nat) (calls : List SearchCall)
    (h0 : fetchAllOldEmails st B fuel = some (fat, emails, calls)) :
    (∀ i (hi : i + 1 < r.searchCalls.length),
        r.searchCalls[i + 1].startSeq = r.searchCalls[i].startSeq + B ∧
        r.searchCalls[i].pageLen ≠ 0) ∧
    (r.fatal = false →
      (r.searchCalls.getLast?).map SearchCall.pageLen = some 0) ∧
    (∀ i (hi : i + 1 < calls.length),
        calls[i + 1].startSeq = calls[i].startSeq + B ∧ B ≤ calls[i].pageLen) ∧
    (fat = false → ∀ hne : calls ≠ [], (calls.getLast hne).pageLen < B) := by
  obtain ⟨_, _, _, hform, hpair, hclean, _, _, _, _, hdegS, _, _, _, _⟩ :=
    runMain_spec st B fuel r h
  obtain ⟨new, hceq, hneF, hformF, hpairF, hcleanF, _⟩ :=
    fetchAllLoop_spec st B fuel 1 0 [] [] fat emails calls
      (by rwa [fetchAllOldEmails] at h0)
  have hcalls : calls = new := by rw [hceq]; simp
  refine ⟨?_, ?_, ?_, ?_⟩
  · intro i hi
    have hi' : i < r.searchCalls.length := Nat.lt_of_succ_lt hi
    refine ⟨?_, ?_⟩
    · rw [(hform (i + 1) hi).1, (hform i hi').1]; ring
    · have hp := hpair i hi
      simp only [nonEmptyPage, Bool.and_eq_true, bne_iff_ne] at hp
      exact hp.2
  · intro hff
    by_cases hc : st.connectOk = true
    · by_cases ho : st.openOk = true
      · have hcl := hclean hff hc ho
        cases hgl : r.searchCalls.getLast? with
        | none => rw [hgl] at hcl; cases hcl
        | some c =>
          rw [hgl] at hcl
          simp only [Option.map_some', Option.some.injEq, Prod.mk.injEq] at hcl
          simp only [Option.map_some', Option.some.injEq]
          exact hcl.2
      · have hd := hdegS (Or.inr (by simpa using ho))
        rw [hd.1] at hff; cases hff
    · have hd := hdegS (Or.inl (by simpa using hc))
      rw [hd.1] at hff; cases hff
  · rw [hcalls]
    intro i hi
    refine ⟨?_, ?_⟩
    · rw [(hformF (i + 1) hi).1, (hformF i (Nat.lt_of_succ_lt hi)).1]; ring
    · exact (hpairF i hi).2
  · rw [hcalls]
    intro hff hne
    exact (hcleanF hff hne).2

/-- C1 amended, witnessed on a concrete clean run against `emptyStore` with
window size 2. -/
theorem c1_amended_witness :
    (runMain emptyStore 2 10 = some emptyRun ∧
     fetchAllOldEmails emptyStore 2 10 = some (false, [], emptyCalls)) ∧
    ((∀ i (hi : i + 1 < emptyRun.searchCalls.length),
        emptyRun.searchCalls[i + 1].startSeq = emptyRun.searchCalls[i].startSeq + 2 ∧
        emptyRun.searchCalls[i].pageLen ≠ 0) ∧
     (emptyRun.fatal = false →
       (emptyRun.searchCalls.getLast?).map SearchCall.pageLen = some 0) ∧
     (∀ i (hi : i + 1 < emptyCalls.length),
        emptyCalls[i + 1].startSeq = emptyCalls[i].startSeq + 2 ∧
        2 ≤ emptyCalls[i].pageLen) ∧
     (false = false → ∀ hne : emptyCalls ≠ [],
        (emptyCalls.getLast hne).pageLen < 2)) :=
  ⟨⟨by decide, by decide⟩,
    c1_amended emptyStore 2 10 emptyRun (by decide) false [] emptyCalls (by decide)⟩

/-- C2 counterexample: with window size 1 and a mailbox of a single matching
message, the `part_000` paginator issues 2 page requests, not
`ceil(1/1) = 1`, and the last page has length 0, not `w = 1`. -/
theorem c2_counterexample :
    (fetchAllOldEmails (uniformStore 1 1) 1 10).map
        (fun t => (t.2.2.length, (t.2.2.getLast?).map SearchCall.pageLen))
      = some (2, some 0) ∧ (2 : Nat) ≠ 1 ∧ (0 : Nat) ≠ 1 :=
  ⟨by decide, by decide, by decide⟩

/-- C2 amended: for every window size `w ≥ 1` and mailbox size `m` in which
every message matches the cutoff, the `part_000` paginator collects exactly
the identifiers `1..m` and issues exactly `m / w + 1` page requests — that is,
`ceil(m/w)` requests when `w` does not divide `m`, but one request more than
`m / w` when `w` divides `m` (including `m = 0`) — and the last page has
length `m % w` (length 0, not `w`, when `w` divides `m`). -/
theorem c2_amended (m B fuel : Nat) (hB : 1 ≤ B) (hfuel : m / B + 1 ≤ fuel) :
    ∃ calls : List SearchCall,
      fetchAllOldEmails (uniformStore m B) B fuel
        = some (false, List.range' 1 m, calls) ∧
      calls.length = m / B + 1 ∧
      (calls.getLast?).map SearchCall.pageLen = some (m % B) := by
  obtain ⟨new, heq, hlen, hlast⟩ :=
    fetchAllLoop_uniform m B hB fuel 1 0 [] [] (by simpa using hfuel)
  refine ⟨new, ?_, ?_, ?_⟩
  · rw [fetchAllOldEmails, heq]
    simp
  · simpa using hlen
  · simpa using hlast

/-- C2 amended, witnessed at `m = 5`, `w = 2`: three page requests
(`5 / 2 + 1`), all five identifiers collected, last page of length
`5 % 2 = 1`. -/
theorem c2_amended_witness :
    (1 ≤ 2 ∧ 5 / 2 + 1 ≤ 10) ∧
    ∃ calls : List SearchCall,
      fetchAllOldEmails (uniformStore 5 2) 2 10
        = some (false, List.range' 1 5, calls) ∧
      calls.length = 5 / 2 + 1 ∧
      (calls.getLast?).map SearchCall.pageLen = some (5 % 2) :=
  ⟨⟨by decide, by decide⟩, c2_amended 5 2 10 (by decide) (by decide)⟩

/-- C5: for every completed chunked move loop, the moved-message counter is
unchanged by the mover; every move call of the invocation records the same
counter value; and whenever a chunk move fails there is a next move request,
and it resubmits a chunk with identical identifier content at the identical
cursor with the counter unchanged — the failing chunk is retried, not
skipped. -/
theorem c5_failed_chunk_retry (st : Store) (B : Nat) (emails : List Nat)
    (fuel idx : Nat) (s out : RunState)
    (h : moveLoop st B emails fuel idx s = some out) :
    out.movedCount = s.movedCount ∧
    ∃ nm : List MoveCall,
      out.moveCalls = s.moveCalls ++ nm ∧
      (∀ c ∈ nm, c.movedCountAt = s.movedCount) ∧
      (∀ i (hi : i < nm.length), nm[i].ok = false →
        (nm[i + 1]?).map (fun c => (c.chunk, c.index, c.movedCountAt))
          = some (nm[i].chunk, nm[i].index, nm[i].movedCountAt)) := by
  obtain ⟨nm, hmc, _, _, hmv, _, _, _, hat, _, _, _, hretry⟩ :=
    moveLoop_spec st B emails fuel idx s out h
  exact ⟨hmv, nm, hmc, hat, hretry⟩

/-- Concrete final state of the chunked move loop against `retryStore`: the
first request for chunk `[4, 5]` fails, the identical chunk is resubmitted and
succeeds, then chunk `[6]` is moved. -/
def retryOut : RunState :=
  ⟨1, 0, 3, 0, 0, [],
   [⟨[4, 5], 0, 0, false⟩, ⟨[4, 5], 0, 0, true⟩, ⟨[6], 2, 0, true⟩]⟩

/-- C5 witnessed on a concrete failing-then-succeeding move trace. -/
theorem c5_failed_chunk_retry_witness :
    moveLoop retryStore 2 [4, 5, 6] 5 0 initState = some retryOut ∧
    (retryOut.movedCount = initState.movedCount ∧
     ∃ nm : List MoveCall,
       retryOut.moveCalls = initState.moveCalls ++ nm ∧
       (∀ c ∈ nm, c.movedCountAt = initState.movedCount) ∧
       (∀ i (hi : i < nm.length), nm[i].ok = false →
         (nm[i + 1]?).map (fun c => (c.chunk, c.index, c.movedCountAt))
           = some (nm[i].chunk, nm[i].index, nm[i].movedCountAt))) :=
  ⟨by decide,
    c5_failed_chunk_retry retryStore 2 [4, 5, 6] 5 0 initState retryOut (by decide)⟩

/-- C10: for every completed run with batch size `B`, the k-th search request
(0-based index `i`) is issued with start sequence `1 + i * B`; consecutive
window starts differ by exactly `B` — independent of how many identifiers each
page contained and of whether its messages were moved — so the requested
windows `[start, start + B)` are pairwise disjoint and contiguous. -/
theorem c10_window_progression (st : Store) (B fuel : Nat) (r : RunResult)
    (h : runMain st B fuel = some r) :
    (∀ i (hi : i < r.searchCalls.length), r.searchCalls[i].startSeq = 1 + i * B) ∧
    (∀ i (hi : i + 1 < r.searchCalls.length),
        r.searchCalls[i + 1].startSeq = r.searchCalls[i].startSeq + B) ∧
    (∀ i j (hi : i < r.searchCalls.length) (hj : j < r.searchCalls.length),
        i < j → r.searchCalls[i].startSeq + B ≤ r.searchCalls[j].startSeq) := by
  obtain ⟨_, _, _, hform, _, _, _, _, _, _, _, _, _, _, _⟩ := runMain_spec st B fuel r h
  refine ⟨?_, ?_, ?_⟩
  · intro i hi; exact (hform i hi).1
  · intro i hi
    rw [(hform (i + 1) hi).1, (hform i (Nat.lt_of_succ_lt hi)).1]; ring
  · intro i j hi hj hij
    rw [(hform i hi).1, (hform j hj).1]
    have h1 : (i + 1) * B ≤ j * B := Nat.mul_le_mul_right B hij
    have h2 : 1 + i * B + B = 1 + (i + 1) * B := by ring
    omega

/-- C10 witnessed on a concrete three-page run against `twoPageStore`. -/
theorem c10_window_progression_witness :
    runMain twoPageStore 2 10 = some twoPageRun ∧
    ((∀ i (hi : i < twoPageRun.searchCalls.length),
        twoPageRun.searchCalls[i].startSeq = 1 + i * 2) ∧
     (∀ i (hi : i + 1 < twoPageRun.searchCalls.length),
        twoPageRun.searchCalls[i + 1].startSeq = twoPageRun.searchCalls[i].startSeq + 2) ∧
     (∀ i j (hi : i < twoPageRun.searchCalls.length)
        (hj : j < twoPageRun.searchCalls.length),
        i < j → twoPageRun.searchCalls[i].startSeq + 2 ≤ twoPageRun.searchCalls[j].startSeq)) :=
  ⟨by decide, c10_window_progression twoPageStore 2 10 twoPageRun (by decide)⟩

/-- Concrete observable outcome of `runMain noArchiveStore 1 10`: the moved
counter reports 1 although no move request was ever issued. -/
def noArchiveRun : RunResult :=
  ⟨0, 1, 1, 1, 1, 0, [⟨1, 0, true, 1⟩, ⟨2, 0, true, 0⟩], [], false⟩

/-- Concrete observable outcome of `runMain clockStore 1 10`: the two searches
carry different cutoffs because the wall clock crossed a day boundary. -/
def clockRun : RunResult :=
  ⟨0, 1, 1, 1, 1, 0, [⟨1, 0, true, 1⟩, ⟨2, 1440, true, 0⟩],
   [⟨[1], 0, 0, true⟩], false⟩

/-- Concrete observable outcome of `runMainV0 twoPageStore 2 10`: one single
archive check for the whole run. -/
def twoPageRunV0 : RunResultV0 :=
  ⟨[1, 2, 3], [⟨1, 0, true, 2⟩, ⟨3, 0, true, 1⟩],
   [⟨[1, 2], 0, 0, true⟩, ⟨[3], 2, 0, true⟩], 1, 1, 0, false⟩

/-- Concrete observable outcome of `runMain connFailStore 2 10`: a fatal
connect error is swallowed and the process still exits 0. -/
def connFailRun : RunResult := ⟨0, 0, 0, 0, 1, 0, [], [], true⟩

/-- Concrete observable outcome of `runMainV0 connFailStore 2 10`. -/
def connFailRunV0 : RunResultV0 := ⟨[], [], [], 0, 1, 0, true⟩

/-- Concrete observable outcome of `runMain badLogoutStore 1 10`: a clean run
whose failing logout flips the exit status to 1. -/
def badLogoutRun : RunResult :=
  ⟨0, 0, 0, 0, 1, 1, [⟨1, 0, true, 0⟩], [], false⟩

/-- C3 counterexample: with the archive container absent from the listing,
the run against `noArchiveStore` ends with `movedCount = 1` although zero
`messageMove` requests were issued — the counter increased for a page whose
messages were never moved, contradicting the claim. -/
theorem c3_counterexample :
    (runMain noArchiveStore 1 10).map (fun r => (r.movedCount, r.moveCalls.length))
      = some (1, 0) ∧ (1 : Nat) ≠ 0 :=
  ⟨by decide, by decide⟩

/-- C3 amended: throughout every run the moved-message counter is
monotonically non-decreasing (the counter values recorded at successive move
requests never decrease), and when the archive container exists the final
counter equals the total size of the chunks whose moves the store confirmed
successful — every increase is backed by confirmed moves. When the archive
container is absent, however, the counter still increases by each returned
page's length even though no message was ever moved. -/
theorem c3_amended (st : Store) (B fuel : Nat) (r : RunResult)
    (h : runMain st B fuel = some r) :
    List.Pairwise (fun a b => a.movedCountAt ≤ b.movedCountAt) r.moveCalls ∧
    (archivePresent st = true →
      r.movedCount
        = ((r.moveCalls.filter MoveCall.ok).map (fun c => c.chunk.length)).sum) ∧
    (archivePresent st = false →
      r.moveCalls = [] ∧
      r.movedCount = (r.searchCalls.map SearchCall.pageLen).sum) := by
  obtain ⟨_, _, _, _, _, _, _, hsum, _, _, _, _, habs, hpres, hpw⟩ :=
    runMain_spec st B fuel r h
  exact ⟨hpw, hpres, fun hab => ⟨habs hab, hsum⟩⟩

/-- C3 amended, witnessed on the concrete run against `twoPageStore`. -/
theorem c3_amended_witness :
    runMain twoPageStore 2 10 = some twoPageRun ∧
    (List.Pairwise (fun a b => a.movedCountAt ≤ b.movedCountAt) twoPageRun.moveCalls ∧
     (archivePresent twoPageStore = true →
       twoPageRun.movedCount
         = ((twoPageRun.moveCalls.filter MoveCall.ok).map (fun c => c.chunk.length)).sum) ∧
     (archivePresent twoPageStore = false →
       twoPageRun.moveCalls = [] ∧
       twoPageRun.movedCount = (twoPageRun.searchCalls.map SearchCall.pageLen).sum)) :=
  ⟨by decide, c3_amended twoPageStore 2 10 twoPageRun (by decide)⟩

/-- C4 counterexample: with the archive container absent, the run against
`noArchiveStore` is non-fatal and issues zero move requests, but pagination is
not skipped — two search requests are issued — and the run ends reporting one
moved message, contradicting the claimed "pagination and moving are skipped
... having moved zero messages". -/
theorem c4_counterexample :
    (runMain noArchiveStore 1 10).map
        (fun r => (r.fatal, r.moveCalls.length, r.searchCalls.length, r.movedCount))
      = some (false, 0, 2, 1) ∧ (2 : Nat) ≠ 0 ∧ (1 : Nat) ≠ 0 :=
  ⟨by decide, by decide, by decide⟩

/-- C4 amended: for every run whose container listing has no mailbox equal to
"archive" case-insensitively (and whose connect and mailbox-open succeed),
zero move requests are issued and the run is non-fatal provided no search
fails — but pagination is not skipped: at least one search request is still
issued, the loop walks the whole mailbox, and the moved-message counter still
increases by each returned page's length even though zero messages were
moved. -/
theorem c4_amended (st : Store) (B fuel : Nat) (r : RunResult)
    (h : runMain st B fuel = some r) (habs : archivePresent st = false)
    (hc : st.connectOk = true) (ho : st.openOk = true) :
    r.moveCalls = [] ∧
    r.searchCalls ≠ [] ∧
    ((∀ k, st.searchOk k = true) → r.fatal = false) ∧
    r.movedCount = (r.searchCalls.map SearchCall.pageLen).sum := by
  obtain ⟨_, _, _, _, _, _, _, hsum, _, hne, _, hallok, habs', _, _⟩ :=
    runMain_spec st B fuel r h
  exact ⟨habs' habs, hne hc ho, hallok hc ho, hsum⟩

/-- C4 amended, witnessed on the concrete run against `noArchiveStore`. -/
theorem c4_amended_witness :
    (runMain noArchiveStore 1 10 = some noArchiveRun ∧
     archivePresent noArchiveStore = false ∧
     noArchiveStore.connectOk = true ∧ noArchiveStore.openOk = true) ∧
    (noArchiveRun.moveCalls = [] ∧
     noArchiveRun.searchCalls ≠ [] ∧
     ((∀ k, noArchiveStore.searchOk k = true) → noArchiveRun.fatal = false) ∧
     noArchiveRun.movedCount = (noArchiveRun.searchCalls.map SearchCall.pageLen).sum) :=
  ⟨⟨by decide, by decide, by decide, by decide⟩,
    c4_amended noArchiveStore 1 10 noArchiveRun (by decide) (by decide)
      (by decide) (by decide)⟩

/-- C6 counterexample: in a run against `clockStore` the wall clock crosses a
day boundary between the two searches, and the two search requests carry
different cutoffs (0 and 1440) — the cutoff is not a single per-run value
reused by every search, contradicting the claim. -/
theorem c6_counterexample :
    (runMain clockStore 1 10).map (fun r => r.searchCalls.map SearchCall.cutoff)
      = some [0, 1440] ∧ (0 : Nat) ≠ 1440 :=
  ⟨by decide, by decide⟩

/-- C6 amended: `main` computes one run-level cutoff from the wall clock at
the start of the run, but that value is never used by any search; instead the
cutoff of the i-th search is recomputed inside `fetchEmails` as the start of
the day seven days before the wall clock at that call, so searches of one run
use different cutoffs whenever the clock crosses a day boundary mid-run. -/
theorem c6_amended (st : Store) (B fuel : Nat) (r : RunResult)
    (h : runMain st B fuel = some r) :
    r.runCutoff = computeCutoff st.now0 ∧
    (∀ i (hi : i < r.searchCalls.length),
      r.searchCalls[i].cutoff = computeCutoff (st.nowAt i)) := by
  obtain ⟨_, _, hrc, hform, _, _, _, _, _, _, _, _, _, _, _⟩ :=
    runMain_spec st B fuel r h
  exact ⟨hrc, fun i hi => (hform i hi).2.1⟩

/-- C6 amended, witnessed on the concrete run against `clockStore`. -/
theorem c6_amended_witness :
    runMain clockStore 1 10 = some clockRun ∧
    (clockRun.runCutoff = computeCutoff clockStore.now0 ∧
     (∀ i (hi : i < clockRun.searchCalls.length),
       clockRun.searchCalls[i].cutoff = computeCutoff (clockStore.nowAt i))) :=
  ⟨by decide, c6_amended clockStore 1 10 clockRun (by decide)⟩

/-- C7 counterexample: in a run of `src/src/main.ts` with two non-empty
pages, the archive-existence check (one `connection.list()` per
`moveEmailsToArchive` call) runs twice, contradicting the claim that it is
checked exactly once per run. -/
theorem c7_counterexample :
    (runMain twoPageStore 2 10).map (fun r => r.listCalls) = some 2 ∧ (2 : Nat) ≠ 1 :=
  ⟨by decide, by decide⟩

/-- C7 amended: the archive container's existence is checked case-insensitively
by name before any move of the checking invocation, but once per
`moveEmailsToArchive` invocation rather than once per run: in
`src/src/main.ts` the number of checks equals the number of non-empty pages,
while in the `part_000` iteration the mover is invoked at most once so the
check runs at most once per run; when every check fails no move request is
ever issued. -/
theorem c7_amended (st : Store) (B fuel : Nat) (r : RunResult)
    (h : runMain st B fuel = some r)
    (r0 : RunResultV0) (h0 : runMainV0 st B fuel = some r0) :
    r.listCalls = r.searchCalls.countP nonEmptyPage ∧
    (archivePresent st = false → r.moveCalls = []) ∧
    r0.listCalls ≤ 1 := by
  obtain ⟨_, _, _, _, _, _, _, _, hcount, _, _, _, habs, _, _⟩ :=
    runMain_spec st B fuel r h
  obtain ⟨_, _, hlc0⟩ := runMainV0_cases st B fuel r0 h0
  exact ⟨hcount, habs, hlc0⟩

/-- C7 amended, witnessed on the concrete runs of both iterations against
`twoPageStore`. -/
theorem c7_amended_witness :
    (runMain twoPageStore 2 10 = some twoPageRun ∧
     runMainV0 twoPageStore 2 10 = some twoPageRunV0) ∧
    (twoPageRun.listCalls = twoPageRun.searchCalls.countP nonEmptyPage ∧
     (archivePresent twoPageStore = false → twoPageRun.moveCalls = []) ∧
     twoPageRunV0.listCalls ≤ 1) :=
  ⟨⟨by decide, by decide⟩,
    c7_amended twoPageStore 2 10 twoPageRun (by decide) twoPageRunV0 (by decide)⟩

/-- C8 counterexample: a run against `connFailStore` fails fatally at connect,
logout is attempted, and the process exits 0 — not non-zero as claimed — since
`main`'s catch block swallows the error and the final `.catch` only fires when
`logout` itself throws. -/
theorem c8_counterexample :
    (runMain connFailStore 2 10).map (fun r => (r.fatal, r.logoutCalls, r.exitCode))
      = some (true, 1, 0) ∧ (0 : Nat) = 0 :=
  ⟨by decide, rfl⟩

/-- C8 amended: in both iterations of `main` a fatal error (connect,
mailbox-open, or search failure) is caught and logged, logout is still
attempted exactly once, and the process exit status is independent of the
fatality: it is 0 exactly when logout succeeds and non-zero exactly when
logout throws — a fatal run with a successful logout exits 0, and a clean run
exits 0 only when logout also succeeds. -/
theorem c8_amended (st : Store) (B fuel : Nat) (r : RunResult)
    (h : runMain st B fuel = some r)
    (r0 : RunResultV0) (h0 : runMainV0 st B fuel = some r0) :
    r.logoutCalls = 1 ∧
    r.exitCode = (if st.logoutOk then 0 else 1) ∧
    r0.exitCode = (if st.logoutOk then 0 else 1) := by
  obtain ⟨hlo, hec, _, _, _, _, _, _, _, _, _, _, _, _, _⟩ :=
    runMain_spec st B fuel r h
  obtain ⟨_, hec0, _⟩ := runMainV0_cases st B fuel r0 h0
  exact ⟨hlo, hec, by rw [hec0]; rfl⟩

/-- C8 amended, witnessed on the concrete fatal-connect runs of both
iterations against `connFailStore`. -/
theorem c8_amended_witness :
    (runMain connFailStore 2 10 = some connFailRun ∧
     runMainV0 connFailStore 2 10 = some connFailRunV0) ∧
    (connFailRun.logoutCalls = 1 ∧
     connFailRun.exitCode = (if connFailStore.logoutOk then 0 else 1) ∧
     connFailRunV0.exitCode = (if connFailStore.logoutOk then 0 else 1)) :=
  ⟨⟨by decide, by decide⟩,
    c8_amended connFailStore 2 10 connFailRun (by decide) connFailRunV0 (by decide)⟩

/-- C9 counterexample: a clean run against `badLogoutStore` (no fatal error,
zero messages to move) in which the logout call throws exits with status 1
instead of 0 — the teardown error does change the run's reported outcome,
contradicting the claim. -/
theorem c9_counterexample :
    (runMain badLogoutStore 1 10).map (fun r => (r.fatal, r.logoutCalls, r.exitCode))
      = some (false, 1, 1) ∧ (1 : Nat) ≠ 0 :=
  ⟨by decide, by decide⟩

/-- C9 amended: session teardown is invoked exactly once per completed run,
unconditionally as the last step, whether the run ended fatal or clean; but a
teardown error is not inert: it escapes `main` and flips the process exit
status to non-zero, so it does change the run's reported outcome. -/
theorem c9_amended (st : Store) (B fuel : Nat) (r : RunResult)
    (h : runMain st B fuel = some r) :
    r.logoutCalls = 1 ∧
    (st.logoutOk = true → r.exitCode = 0) ∧
    (st.logoutOk = false → r.exitCode ≠ 0) := by
  obtain ⟨hlo, hec, _, _, _, _, _, _, _, _, _, _, _, _, _⟩ :=
    runMain_spec st B fuel r h
  refine ⟨hlo, ?_, ?_⟩
  · intro hl; rw [hec, if_pos hl]
  · intro hl; rw [hec, if_neg (by simp [hl])]
    exact one_ne_zero

/-- C9 amended, witnessed on the concrete clean-but-failing-logout run
against `badLogoutStore`. -/
theorem c9_amended_witness :
    runMain badLogoutStore 1 10 = some badLogoutRun ∧
    (badLogoutRun.logoutCalls = 1 ∧
     (badLogoutStore.logoutOk = true → badLogoutRun.exitCode = 0) ∧
     (badLogoutStore.logoutOk = false → badLogoutRun.exitCode ≠ 0)) :=
  ⟨by decide, c9_amended badLogoutStore 1 10 badLogoutRun (by decide)⟩
